import Mathlib

/-!
Verification of the touchHLE guest filesystem (`src/fs.rs`) and the generic
guest C-string primitives (`src/libc/generic_char.rs`).

Guest strings (`&str` / `GuestPath`) are embedded as `List Char`.
Host paths (`PathBuf`) are embedded as lists of path components.
`HashMap<String, FsNode>` is embedded as an association list with
first-match lookup; insertion replaces an existing binding or appends.
Rust panics (`unwrap`, `assert!`, explicit `panic!`) are made explicit in
return types; host I/O (actually opening or reading a host file) is
abstracted to the host path being accessed, since the guest tree is the
authority on which host path an operation touches.
-/

set_option maxRecDepth 10000

namespace TouchHLE

/-- Guest strings: Rust `&str` contents as a list of characters. -/
abbrev Str := List Char

/-- Host paths: Rust `PathBuf` as a list of path components
(`PathBuf::join` appends one component). -/
abbrev HostPath := List Str

/-- Rust `str::split(sep)` semantics: splitting `""` gives `[""]`, adjacent
separators give empty pieces, a leading or trailing separator gives a
leading or trailing empty piece. -/
def splitChar (sep : Char) : Str → List Str
  | [] => [[]]
  | c :: rest =>
    if c = sep then [] :: splitChar sep rest
    else
      match splitChar sep rest with
      | [] => [[c]]
      | p :: ps => (c :: p) :: ps

/-- Whether a guest string starts with `'/'` (Rust `str::starts_with('/')`). -/
def startsWithSlash : Str → Bool
  | '/' :: _ => true
  | _ => false

/-- `fs.rs` `apply_path_component`: `""` and `"."` are ignored, `".."` pops
the last component (`Vec::pop`, a no-op on an empty vector), anything else
is pushed. -/
def apply_path_component (components : List Str) (component : Str) : List Str :=
  if component = [] then components
  else if component = ['.'] then components
  else if component = ['.', '.'] then components.dropLast
  else components ++ [component]

/-- `fs.rs` `resolve_path`. The Rust function panics (`Option::unwrap`,
`assert!`) when the path is relative and `relative_to` is absent or not
absolute; those panics are modelled as `none`. -/
def resolve_path (path : Str) (relative_to : Option Str) : Option (List Str) :=
  if startsWithSlash path then
    some ((splitChar '/' path).foldl apply_path_component [])
  else
    match relative_to with
    | none => none
    | some r =>
      if startsWithSlash r then
        some ((splitChar '/' path).foldl apply_path_component
          ((splitChar '/' r).foldl apply_path_component []))
      else none

/-- `Vec::split_last` on the component list: `none` on `[]`, otherwise the
leading components together with the final one. -/
def splitLast? {α : Type} : List α → Option (List α × α)
  | [] => none
  | [a] => some ([], a)
  | a :: b :: rest => (splitLast? (b :: rest)).map (fun pl => (a :: pl.1, pl.2))

namespace GuestMap

/-- `HashMap::get`, on the association-list embedding. -/
def get {α : Type} : List (Str × α) → Str → Option α
  | [], _ => none
  | (k, v) :: rest, key => if k = key then some v else get rest key

/-- `HashMap::insert`: replace the binding of the key if present, otherwise
add a new binding. -/
def insert {α : Type} : List (Str × α) → Str → α → List (Str × α)
  | [], key, v => [(key, v)]
  | (k, w) :: rest, key, v =>
    if k = key then (k, v) :: rest else (k, w) :: insert rest key v

/-- `HashMap::get_mut` followed by an in-place update of the found value,
as a functional update of the first matching binding. -/
def modify {α : Type} : List (Str × α) → Str → (α → α) → List (Str × α)
  | [], _, _ => []
  | (k, v) :: rest, key, f =>
    if k = key then (k, f v) :: rest else (k, v) :: modify rest key f

end GuestMap

/-- `fs.rs` `FsNode`: a file carries its host path and a writeable flag; a
directory carries its children and, when writeable, the host directory in
which new files are created. -/
inductive FsNode where
  | file (host_path : HostPath) (writeable : Bool)
  | directory (children : List (Str × FsNode)) (writeable : Option HostPath)

/-- The loop body of `Fs::lookup_node`: from a node, walk a resolved
component list; each step requires a directory containing the component. -/
def walkNode : FsNode → List Str → Option FsNode
  | node, [] => some node
  | node, c :: rest =>
    match node with
    | .file _ _ => none
    | .directory children _ =>
      match GuestMap.get children c with
      | none => none
      | some child => walkNode child rest

/-- The write-back of `Fs::open_with_options`: walk to the directory at
`parentComponents` through mutable references (`HashMap::get_mut`) and
insert `child` under `name` there. Positions the Rust code cannot reach
(a missing or non-directory node on the walk) leave the tree unchanged. -/
def insertAtPath : FsNode → List Str → Str → FsNode → FsNode
  | node, [], name, child =>
    match node with
    | .directory children w => .directory (GuestMap.insert children name child) w
    | n => n
  | node, c :: rest, name, child =>
    match node with
    | .directory children w =>
        .directory (GuestMap.modify children c (fun v => insertAtPath v rest name child)) w
    | n => n

/-- `fs.rs` `GuestOpenOptions`: five independent flags. -/
structure GuestOpenOptions where
  read : Bool
  write : Bool
  append : Bool
  create : Bool
  truncate : Bool

/-- `GuestOpenOptions::new()`: all flags false. -/
def GuestOpenOptions.new : GuestOpenOptions :=
  { read := false, write := false, append := false, create := false, truncate := false }

/-- Fluent setter `GuestOpenOptions::read`. -/
def GuestOpenOptions.setRead (o : GuestOpenOptions) : GuestOpenOptions := { o with read := true }

/-- Fluent setter `GuestOpenOptions::write`. -/
def GuestOpenOptions.setWrite (o : GuestOpenOptions) : GuestOpenOptions := { o with write := true }

/-- Fluent setter `GuestOpenOptions::append`. -/
def GuestOpenOptions.setAppend (o : GuestOpenOptions) : GuestOpenOptions := { o with append := true }

/-- Fluent setter `GuestOpenOptions::create`. -/
def GuestOpenOptions.setCreate (o : GuestOpenOptions) : GuestOpenOptions := { o with create := true }

/-- Fluent setter `GuestOpenOptions::truncate`. -/
def GuestOpenOptions.setTruncate (o : GuestOpenOptions) : GuestOpenOptions := { o with truncate := true }

/-- The five flags handed to the host `File::options()` open call. -/
structure HostFlags where
  read : Bool
  write : Bool
  append : Bool
  create : Bool
  truncate : Bool

/-- Outcome of `Fs::open_with_options`. `ok` records the host path that is
opened and the exact flags passed to the host open (the host handle itself
is external I/O). The three panic constructors distinguish the `assert!`
on the options, the `unwrap`/`assert!` inside `resolve_path`, and the
`panic!` on a path separator in a created filename. -/
inductive OpenOutcome where
  | ok (host_path : HostPath) (flags : HostFlags)
  | notFound
  | panicAssert
  | panicResolve
  | panicSeparator

/-- `fs.rs` `Fs`: the root node, the current directory and the home
directory (both absolute guest paths). -/
structure Fs where
  root : FsNode
  current_directory : Str
  home_directory : Str

/-- `Fs::lookup_node`: resolve against the current directory, then walk
from the root. A `resolve_path` panic is `none` here; theorem
`claim10_resolution_never_panics` shows it is unreachable while the
current directory is absolute, so the collapse is harmless. -/
def Fs.lookup_node (fs : Fs) (path : Str) : Option FsNode :=
  (resolve_path path (some fs.current_directory)).bind (walkNode fs.root)

/-- `Fs::home_directory`. -/
def Fs.homeDirectory (fs : Fs) : Str := fs.home_directory

/-- `Fs::is_file`: true iff lookup yields a `File`. -/
def Fs.is_file (fs : Fs) (path : Str) : Bool :=
  match fs.lookup_node path with
  | some (.file _ _) => true
  | _ => false

/-- `Fs::read`: look up the node, require a file, and read the host file —
abstracted to the host path that is read. `none` is `Err(())`. -/
def Fs.readFile (fs : Fs) (path : Str) : Option HostPath :=
  match fs.lookup_node path with
  | some (.file host_path _) => some host_path
  | _ => none

/-- `Fs::open` (read-only open): same lookup as `Fs::read`, abstracted to
the host path that is opened. -/
def Fs.openFile (fs : Fs) (path : Str) : Option HostPath :=
  match fs.lookup_node path with
  | some (.file host_path _) => some host_path
  | _ => none

/-- `Fs::open_with_options`, returning the outcome together with the
filesystem state afterwards. `Fs::lookup_parent_node` is inlined
(resolve, `split_last`, walk to the parent) because the Rust version
hands back a mutable reference into the tree; the creation branch's
write-back through that reference is `insertAtPath`. -/
def Fs.open_with_options (fs : Fs) (path : Str) (options : GuestOpenOptions) :
    OpenOutcome × Fs :=
  if (!options.truncate && !options.create) || options.write || options.append then
    match resolve_path path (some fs.current_directory) with
    | none => (.panicResolve, fs)
    | some components =>
      match splitLast? components with
      | none => (.notFound, fs)
      | some (parent_components, new_filename) =>
        match walkNode fs.root parent_components with
        | none => (.notFound, fs)
        | some (.file _ _) => (.notFound, fs)
        | some (.directory children dir_host_path) =>
          match GuestMap.get children new_filename with
          | some (.directory _ _) => (.notFound, fs)
          | some (.file host_path writeable) =>
            if !writeable && (options.append || options.write) then
              (.notFound, fs)
            else
              (.ok host_path
                { read := options.read, write := options.write,
                  append := options.append, create := false,
                  truncate := options.truncate }, fs)
          | none =>
            if !options.create then (.notFound, fs)
            else
              match dir_host_path with
              | none => (.notFound, fs)
              | some dhp =>
                if new_filename.any (fun c => c = '/') then (.panicSeparator, fs)
                else
                  let host_path := dhp ++ [new_filename]
                  let newRoot := insertAtPath fs.root parent_components new_filename
                    (.file host_path true)
                  (.ok host_path
                    { read := options.read, write := options.write,
                      append := options.append, create := options.create,
                      truncate := options.truncate },
                   { fs with root := newRoot })
  else (.panicAssert, fs)

/-- The all-zero UUID used for the guest home directory. -/
def FAKE_UUID : Str := "00000000-0000-0000-0000-000000000000".data

/-- `FsNode::dir()`. -/
def FsNode.dir : FsNode := .directory [] none

/-- `FsNode::with_child` (construction-time helper; the freshness
`assert!` always holds at its call sites, which use distinct literal
names). -/
def FsNode.with_child (n : FsNode) (name : Str) (child : FsNode) : FsNode :=
  match n with
  | .directory children w => .directory (GuestMap.insert children name child) w
  | other => other

/-- `FsNode::file`. -/
def FsNode.mkFile (host_path : HostPath) : FsNode := .file host_path false

/-- `Fs::new`, parameterised by the two host-directory scans
(`FsNode::from_host_dir` on the bundle and on the sandbox `Documents`
directory), which are host I/O. Returns the filesystem and the guest
bundle path. -/
def Fs.new (bundle_scan documents_scan : FsNode) (bundle_dir_name : Str)
    (bundle_id : Str) : Fs × Str :=
  let home_directory : Str := "/User/Applications/".data ++ FAKE_UUID
  let current_directory := home_directory
  let bundle_guest_path := home_directory ++ '/' :: bundle_dir_name
  let documents_host_path : HostPath :=
    ["touchHLE_sandbox".data, bundle_id, "Documents".data]
  let dylibs_host_path : Str := "touchHLE_dylibs".data
  let usr_lib :=
    ((FsNode.dir.with_child "libgcc_s.1.dylib".data
        (FsNode.mkFile [dylibs_host_path, "libgcc_s.1.dylib".data])).with_child
      "libstdc++.6.dylib".data
        (FsNode.mkFile [dylibs_host_path, "libstdc++.6.0.4.dylib".data])).with_child
      "libstdc++.6.0.4.dylib".data
        (FsNode.mkFile [dylibs_host_path, "libstdc++.6.0.4.dylib".data])
  let root :=
    (FsNode.dir.with_child "User".data
      (FsNode.dir.with_child "Applications".data
        (FsNode.dir.with_child FAKE_UUID
          (.directory
            [(bundle_dir_name, bundle_scan),
             ("Documents".data, documents_scan)]
            none)))).with_child "usr".data
      (FsNode.dir.with_child "lib".data usr_lib)
  let _ := documents_host_path
  ({ root := root, current_directory := current_directory,
     home_directory := home_directory }, bundle_guest_path)


/-! ### Guest-memory C-string primitives (`generic_char.rs`)

The code-unit type `T` of `GenericChar<T>` is any type with equality, a
total order, and a default value; the functions are parameterised by a
memory `m : Nat → C` (typed reads and writes of the emulator's guest
memory, addressed in units of `C`) and by the null unit
`nul` (`Default::default()`). The `mem*` functions work on the byte-level
memory instead, as in the source, where the typed pointers are cast to
byte pointers and a byte count `size * guest_size_of::<T>()` is used.
Unbounded `loop`s are embedded with an explicit fuel argument, `none`
meaning the fuel ran out (the Rust loop would still be running). -/

/-- A single typed store to guest memory (`env.mem.write`). -/
def writeMem {C : Type} (m : Nat → C) (a : Nat) (v : C) : Nat → C :=
  fun x => if x = a then v else m x

namespace Mem

/-- The guest memory's own byte-level `memmove`: copies as if through an
intermediate buffer. -/
def memmove (m : Nat → Nat) (dest src count : Nat) : Nat → Nat :=
  fun a => if dest ≤ a ∧ a < dest + count then m (src + (a - dest)) else m a

end Mem

namespace GenericChar

/-- `GenericChar::memcpy`: delegate to the byte-level `memmove` with byte
count `size * guest_size_of::<T>()` and return `dest`. -/
def memcpy (m : Nat → Nat) (dest src size sizeofC : Nat) : (Nat → Nat) × Nat :=
  (Mem.memmove m dest src (size * sizeofC), dest)

/-- `GenericChar::memmove`: delegate to the byte-level `memmove` with byte
count `size * guest_size_of::<T>()` and return `dest`. -/
def memmove (m : Nat → Nat) (dest src size sizeofC : Nat) : (Nat → Nat) × Nat :=
  (Mem.memmove m dest src (size * sizeofC), dest)

/-- The `for i in 0..size` loop of `GenericChar::strncpy`, with the next
index `i`, the remaining iteration count, and the `end` flag. -/
def strncpyAux {C : Type} [DecidableEq C] (nul : C) (dest src : Nat) :
    Nat → Nat → Bool → (Nat → C) → (Nat → C)
  | _, 0, _, m => m
  | i, k + 1, ed, m =>
    if ed then strncpyAux nul dest src (i + 1) k true (writeMem m (dest + i) nul)
    else
      let c := m (src + i)
      strncpyAux nul dest src (i + 1) k (decide (c = nul)) (writeMem m (dest + i) c)

/-- `GenericChar::strncpy`: copy up to `size` units from `src`, then pad
with null units; returns the final memory and `dest`. -/
def strncpy {C : Type} [DecidableEq C] (nul : C) (m : Nat → C) (dest src : Nat)
    (size : Nat) : (Nat → C) × Nat :=
  (strncpyAux nul dest src 0 size false m, dest)

/-- `GenericChar::strcmp`. The unbounded `loop` is given fuel; the source
compares the units at the current offset with `Ord::cmp` and returns `-1`,
`1`, or — at an equal null unit — `0`. -/
def strcmp {C : Type} [LinearOrder C] (nul : C) (m : Nat → C) :
    Nat → Nat → Nat → Option Int
  | _, _, 0 => none
  | a, b, fuel + 1 =>
    let char_a := m a
    let char_b := m b
    if char_a < char_b then some (-1)
    else if char_b < char_a then some 1
    else if char_a = nul then some 0
    else strcmp nul m (a + 1) (b + 1) fuel

/-- The inner matching loop of `GenericChar::strstr` at a fixed haystack
offset: a null needle unit means a full match (return `haystack + offset`),
then a null haystack unit means overall failure (return guest null), then a
mismatch breaks to the next offset. -/
inductive InnerStep where
  | found (p : Nat)
  | nullp
  | nomatch

/-- The inner loop of `GenericChar::strstr`, with fuel. -/
def strstrInner {C : Type} [DecidableEq C] (nul : C) (m : Nat → C)
    (string substring offset : Nat) : Nat → Nat → Option InnerStep
  | _, 0 => none
  | inner_offset, ifuel + 1 =>
    let char_string := m (string + offset + inner_offset)
    let char_substring := m (substring + inner_offset)
    if char_substring = nul then some (.found (string + offset))
    else if char_string = nul then some .nullp
    else if char_string ≠ char_substring then some .nomatch
    else strstrInner nul m string substring offset (inner_offset + 1) ifuel

/-- The outer loop of `GenericChar::strstr`, with fuel; guest null is
pointer `0`. -/
def strstrOuter {C : Type} [DecidableEq C] (nul : C) (m : Nat → C)
    (string substring ifuel : Nat) : Nat → Nat → Option Nat
  | _, 0 => none
  | offset, ofuel + 1 =>
    match strstrInner nul m string substring offset 0 ifuel with
    | none => none
    | some (.found p) => some p
    | some .nullp => some 0
    | some .nomatch => strstrOuter nul m string substring ifuel (offset + 1) ofuel

/-- `GenericChar::strstr`: scan offsets from `0`. -/
def strstr {C : Type} [DecidableEq C] (nul : C) (m : Nat → C)
    (string substring ifuel ofuel : Nat) : Option Nat :=
  strstrOuter nul m string substring ifuel 0 ofuel

end GenericChar

/-- `s` is a terminated string of length `L` at pointer `p`: null at offset
`L` and no null unit before it. -/
def isStrlen {C : Type} (nul : C) (m : Nat → C) (p L : Nat) : Prop :=
  m (p + L) = nul ∧ ∀ j, j < L → m (p + j) ≠ nul

/-! ### Concrete sample data used by the witnesses -/

/-- A one-directory sample tree: `/d` is writeable (host dir `hd`) and
contains the read-only file `f` (host path `hf`). -/
def sampleChildren : List (Str × FsNode) := [(['f'], FsNode.file [['h', 'f']] false)]

/-- Sample root directory holding `d`. -/
def sampleRoot : FsNode :=
  .directory [(['d'], FsNode.directory sampleChildren (some [['h', 'd']]))] none

/-- Sample filesystem with current and home directory `/`. -/
def sampleFs : Fs :=
  { root := sampleRoot, current_directory := ['/'], home_directory := ['/'] }

/-- Options `{write, create}`. -/
def optsWriteCreate : GuestOpenOptions :=
  { read := false, write := true, append := false, create := true, truncate := false }

/-- Options `{write}`. -/
def optsWrite : GuestOpenOptions :=
  { read := false, write := true, append := false, create := false, truncate := false }

/-- Options `{create}` (invalid: no write/append). -/
def optsCreateOnly : GuestOpenOptions :=
  { read := false, write := false, append := false, create := true, truncate := false }

/-- Options `{read}`. -/
def optsRead : GuestOpenOptions :=
  { read := true, write := false, append := false, create := false, truncate := false }

/-- Sample guest memory over `Nat` code units: haystack `[1, 1, 2]` at
address `0`, needle `[1, 2]` at address `10`, an empty string at `20`,
and a needle `[5]` at `30` that does not occur in the haystack. -/
def sampleMem : Nat → Nat :=
  fun a => [1, 1, 2, 0, 0, 0, 0, 0, 0, 0, 1, 2, 0].getD a (if a = 30 then 5 else 0)

/-! ### Map lemmas -/

theorem GuestMap.get_insert_self {α : Type} (l : List (Str × α)) (k : Str) (v : α) :
    GuestMap.get (GuestMap.insert l k v) k = some v := by
  induction l with
  | nil => simp [GuestMap.insert, GuestMap.get]
  | cons hd tl ih =>
    obtain ⟨k', v'⟩ := hd
    by_cases h : k' = k
    · simp [GuestMap.insert, GuestMap.get, h]
    · simp [GuestMap.insert, GuestMap.get, h, ih]

theorem GuestMap.get_insert_ne {α : Type} (l : List (Str × α)) (k k' : Str) (v : α)
    (h : k ≠ k') : GuestMap.get (GuestMap.insert l k v) k' = GuestMap.get l k' := by
  induction l with
  | nil => simp [GuestMap.insert, GuestMap.get, h]
  | cons hd tl ih =>
    obtain ⟨k0, v0⟩ := hd
    by_cases h0 : k0 = k
    · subst h0
      simp [GuestMap.insert, GuestMap.get, h]
    · simp [GuestMap.insert, GuestMap.get, h0, ih]

theorem GuestMap.get_modify_self {α : Type} (l : List (Str × α)) (k : Str) (f : α → α) :
    GuestMap.get (GuestMap.modify l k f) k = (GuestMap.get l k).map f := by
  induction l with
  | nil => simp [GuestMap.modify, GuestMap.get]
  | cons hd tl ih =>
    obtain ⟨k', v'⟩ := hd
    by_cases h : k' = k
    · simp [GuestMap.modify, GuestMap.get, h]
    · simp [GuestMap.modify, GuestMap.get, h, ih]

theorem GuestMap.get_modify_ne {α : Type} (l : List (Str × α)) (k k' : Str) (f : α → α)
    (h : k ≠ k') : GuestMap.get (GuestMap.modify l k f) k' = GuestMap.get l k' := by
  induction l with
  | nil => simp [GuestMap.modify, GuestMap.get]
  | cons hd tl ih =>
    obtain ⟨k0, v0⟩ := hd
    by_cases h0 : k0 = k
    · subst h0
      simp [GuestMap.modify, GuestMap.get, h]
    · simp [GuestMap.modify, GuestMap.get, h0, ih]

/-! ### Resolution lemmas -/

theorem splitChar_ne_nil (sep : Char) (l : Str) : splitChar sep l ≠ [] := by
  induction l with
  | nil => simp [splitChar]
  | cons c rest ih =>
    by_cases h : c = sep
    · simp [splitChar, h]
    · simp only [splitChar, if_neg h]
      cases hs : splitChar sep rest with
      | nil => simp
      | cons p ps => simp

theorem splitChar_no_sep (sep : Char) (l : Str) :
    ∀ piece ∈ splitChar sep l, sep ∉ piece := by
  induction l with
  | nil =>
    intro piece hmem
    simp only [splitChar, List.mem_singleton] at hmem
    subst hmem
    simp
  | cons c rest ih =>
    intro piece hmem
    by_cases h : c = sep
    · simp only [splitChar, if_pos h, List.mem_cons] at hmem
      rcases hmem with rfl | hmem
      · simp
      · exact ih piece hmem
    · simp only [splitChar, if_neg h] at hmem
      cases hs : splitChar sep rest with
      | nil => exact absurd hs (splitChar_ne_nil sep rest)
      | cons p ps =>
        rw [hs] at hmem
        rcases List.mem_cons.mp hmem with rfl | hmem2
        · intro hsep
          rcases List.mem_cons.mp hsep with heq | hsep2
          · exact h heq.symm
          · exact ih p (by rw [hs]; exact List.mem_cons_self p ps) hsep2
        · exact ih piece (by rw [hs]; exact List.mem_cons_of_mem p hmem2)

theorem mem_apply_path_component (cs : List Str) (p c : Str)
    (h : c ∈ apply_path_component cs p) :
    c ∈ cs ∨ (c = p ∧ p ≠ [] ∧ p ≠ ['.'] ∧ p ≠ ['.', '.']) := by
  by_cases h1 : p = []
  · left
    simpa [apply_path_component, h1] using h
  · by_cases h2 : p = ['.']
    · left
      simpa [apply_path_component, h1, h2] using h
    · by_cases h3 : p = ['.', '.']
      · left
        simp only [apply_path_component, if_neg h1, if_neg h2, if_pos h3] at h
        exact List.dropLast_subset _ h
      · simp only [apply_path_component, if_neg h1, if_neg h2, if_neg h3,
          List.mem_append, List.mem_singleton] at h
        rcases h with h | h
        · exact Or.inl h
        · exact Or.inr ⟨h, h1, h2, h3⟩

theorem mem_foldl_apply (pieces : List Str) (cs : List Str) (c : Str)
    (h : c ∈ pieces.foldl apply_path_component cs) :
    c ∈ cs ∨ (c ∈ pieces ∧ c ≠ [] ∧ c ≠ ['.'] ∧ c ≠ ['.', '.']) := by
  induction pieces generalizing cs with
  | nil => exact Or.inl h
  | cons p rest ih =>
    simp only [List.foldl_cons] at h
    rcases ih (apply_path_component cs p) h with h' | h'
    · rcases mem_apply_path_component cs p c h' with h'' | h''
      · exact Or.inl h''
      · refine Or.inr ⟨by simp [h''.1], ?_⟩
        rw [h''.1]
        exact h''.2
    · exact Or.inr ⟨List.mem_cons_of_mem p h'.1, h'.2⟩

/-- `resolve_path` on an absolute path: `relative_to` is not consulted. -/
theorem resolve_path_abs (path : Str) (rel : Option Str)
    (habs : startsWithSlash path = true) :
    resolve_path path rel = some ((splitChar '/' path).foldl apply_path_component []) := by
  unfold resolve_path
  rw [if_pos habs]

/-- `resolve_path` on a relative path applies the pieces of `relative_to`
first and then the pieces of the path; it panics (`none`) when
`relative_to` is not absolute. -/
theorem resolve_path_rel (path r : Str) (habs : startsWithSlash path = false) :
    resolve_path path (some r) =
      if startsWithSlash r = true then
        some ((splitChar '/' path).foldl apply_path_component
          ((splitChar '/' r).foldl apply_path_component []))
      else none := by
  unfold resolve_path
  rw [if_neg (by simp [habs])]

/-- Components produced by `resolve_path` are never `""`, `"."` or `".."`
and never contain a `'/'`. -/
theorem resolve_path_components (path : Str) (rel : Option Str) (cs : List Str)
    (h : resolve_path path rel = some cs) :
    ∀ c ∈ cs, (c ≠ [] ∧ c ≠ ['.'] ∧ c ≠ ['.', '.']) ∧ '/' ∉ c := by
  intro c hc
  have main : ∀ (pieces0 pieces1 : List Str),
      (∀ p ∈ pieces0, '/' ∉ p) → (∀ p ∈ pieces1, '/' ∉ p) →
      c ∈ pieces1.foldl apply_path_component (pieces0.foldl apply_path_component []) →
      (c ≠ [] ∧ c ≠ ['.'] ∧ c ≠ ['.', '.']) ∧ '/' ∉ c := by
    intro pieces0 pieces1 h0 h1 hmem
    rcases mem_foldl_apply pieces1 _ c hmem with h' | h'
    · rcases mem_foldl_apply pieces0 [] c h' with h'' | h''
      · simp at h''
      · exact ⟨h''.2, h0 c h''.1⟩
    · exact ⟨h'.2, h1 c h'.1⟩
  by_cases habs : startsWithSlash path = true
  · rw [resolve_path_abs path rel habs] at h
    have hcs := Option.some.inj h
    subst hcs
    exact main [] (splitChar '/' path) (by simp) (splitChar_no_sep '/' path) hc
  · cases rel with
    | none =>
      unfold resolve_path at h
      rw [if_neg habs] at h
      exact absurd h (by simp)
    | some r =>
      rw [resolve_path_rel path r (by simpa using habs)] at h
      by_cases hr : startsWithSlash r = true
      · rw [if_pos hr] at h
        have hcs := Option.some.inj h
        subst hcs
        exact main (splitChar '/' r) (splitChar '/' path)
          (splitChar_no_sep '/' r) (splitChar_no_sep '/' path) hc
      · rw [if_neg hr] at h
        exact absurd h (by simp)

/-- When `relative_to` is an absolute path, `resolve_path` never panics. -/
theorem resolve_path_isSome (path r : Str) (hr : startsWithSlash r = true) :
    (resolve_path path (some r)).isSome = true := by
  by_cases habs : startsWithSlash path = true
  · rw [resolve_path_abs path (some r) habs]
    rfl
  · rw [resolve_path_rel path r (by simpa using habs), if_pos hr]
    rfl

theorem splitLast?_eq_append {α : Type} (l ps : List α) (x : α)
    (h : splitLast? l = some (ps, x)) : l = ps ++ [x] := by
  induction l generalizing ps with
  | nil => simp [splitLast?] at h
  | cons a rest ih =>
    cases rest with
    | nil =>
      simp only [splitLast?, Option.some.injEq, Prod.mk.injEq] at h
      simp [← h.1, ← h.2]
    | cons b rest' =>
      simp only [splitLast?, Option.map_eq_some'] at h
      obtain ⟨⟨ps', x'⟩, heq, hmk⟩ := h
      have h1 : a :: ps' = ps := congrArg Prod.fst hmk
      have h2 : x' = x := congrArg Prod.snd hmk
      subst h1
      subst h2
      simp [ih ps' heq]

/-! ### Tree walk and insertion lemmas -/

theorem walkNode_append (p : List Str) :
    ∀ (t : FsNode) (q : List Str),
      walkNode t (p ++ q) = (walkNode t p).bind (fun n => walkNode n q) := by
  induction p with
  | nil =>
    intro t q
    simp [walkNode]
  | cons c rest ih =>
    intro t q
    cases t with
    | file hp w => simp [walkNode]
    | directory ch wd =>
      simp only [List.cons_append, walkNode]
      cases GuestMap.get ch c with
      | none => simp
      | some child => exact ih child q

/-- After inserting a new child at the parent path, walking to that child
finds exactly the inserted node. -/
theorem walkNode_insertAtPath_self (pcs : List Str) :
    ∀ (t : FsNode) (name : Str) (child : FsNode) (ch : List (Str × FsNode))
      (w : Option HostPath),
      walkNode t pcs = some (.directory ch w) →
      walkNode (insertAtPath t pcs name child) (pcs ++ [name]) = some child := by
  induction pcs with
  | nil =>
    intro t name child ch w hw
    have ht : t = .directory ch w := by
      simpa [walkNode] using hw
    subst ht
    simp [insertAtPath, walkNode, GuestMap.get_insert_self]
  | cons c rest ih =>
    intro t name child ch w hw
    cases t with
    | file hp wr => simp [walkNode] at hw
    | directory ch0 w0 =>
      simp only [walkNode] at hw
      cases hg : GuestMap.get ch0 c with
      | none => simp [hg] at hw
      | some v =>
        rw [hg] at hw
        simp only [insertAtPath, List.cons_append, walkNode,
          GuestMap.get_modify_self, hg, Option.map_some']
        exact ih v name child ch w hw

/-- Inserting a new file under the parent path leaves every walk that
neither stops at an ancestor of the parent nor targets the new child
unchanged. Requires that the parent directory had no child called `name`
(the situation in the creation branch of `open_with_options`). -/
theorem walkNode_insertAtPath_frame (pcs : List Str) :
    ∀ (t : FsNode) (name : Str) (hpth : HostPath) (wb : Bool)
      (ch : List (Str × FsNode)) (w : Option HostPath),
      walkNode t pcs = some (.directory ch w) →
      GuestMap.get ch name = none →
      ∀ q : List Str, (¬ ∃ s, pcs = q ++ s) → q ≠ pcs ++ [name] →
        walkNode (insertAtPath t pcs name (.file hpth wb)) q = walkNode t q := by
  induction pcs with
  | nil =>
    intro t name hpth wb ch w hw hnone q hnotpref hne
    have ht : t = .directory ch w := by
      simpa [walkNode] using hw
    subst ht
    cases q with
    | nil => exact absurd ⟨[], rfl⟩ hnotpref
    | cons d qrest =>
      simp only [insertAtPath, walkNode]
      by_cases hd : d = name
      · subst hd
        have hqr : qrest ≠ [] := by
          intro hq
          exact hne (by simp [hq])
        rw [GuestMap.get_insert_self, hnone]
        cases qrest with
        | nil => exact absurd rfl hqr
        | cons e er => simp [walkNode]
      · rw [GuestMap.get_insert_ne _ _ _ _ (fun hh => hd hh.symm)]
  | cons c rest ih =>
    intro t name hpth wb ch w hw hnone q hnotpref hne
    cases t with
    | file hp wr => simp [walkNode] at hw
    | directory ch0 w0 =>
      simp only [walkNode] at hw
      cases hg : GuestMap.get ch0 c with
      | none => simp [hg] at hw
      | some v =>
        rw [hg] at hw
        cases q with
        | nil => exact absurd ⟨c :: rest, rfl⟩ hnotpref
        | cons d qrest =>
          simp only [insertAtPath, walkNode]
          by_cases hd : d = c
          · subst hd
            rw [GuestMap.get_modify_self, hg, Option.map_some']
            exact ih v name hpth wb ch w hw hnone qrest
              (fun ⟨s, hs⟩ => hnotpref ⟨s, by simp [hs]⟩)
              (fun hq => hne (by simp [hq]))
          · rw [GuestMap.get_modify_ne _ _ _ _ (fun hh => hd hh.symm)]

/-- Walks that stop at the parent path or one of its ancestors still find a
directory with the same writeability after the insertion. -/
theorem walkNode_insertAtPath_ancestor (pcs : List Str) :
    ∀ (t : FsNode) (name : Str) (child : FsNode) (ch : List (Str × FsNode))
      (w : Option HostPath),
      walkNode t pcs = some (.directory ch w) →
      ∀ q s, pcs = q ++ s →
        ∃ ch1 w1 ch2, walkNode t q = some (.directory ch1 w1) ∧
          walkNode (insertAtPath t pcs name child) q = some (.directory ch2 w1) := by
  induction pcs with
  | nil =>
    intro t name child ch w hw q s hq
    have hq0 : q = [] := by
      cases q with
      | nil => rfl
      | cons a b => simp at hq
    subst hq0
    have ht : t = .directory ch w := by
      simpa [walkNode] using hw
    subst ht
    exact ⟨ch, w, GuestMap.insert ch name child, by simp [walkNode],
      by simp [insertAtPath, walkNode]⟩
  | cons c rest ih =>
    intro t name child ch w hw q s hq
    cases t with
    | file hp wr => simp [walkNode] at hw
    | directory ch0 w0 =>
      simp only [walkNode] at hw
      cases hg : GuestMap.get ch0 c with
      | none => simp [hg] at hw
      | some v =>
        rw [hg] at hw
        cases q with
        | nil =>
          exact ⟨ch0, w0, GuestMap.modify ch0 c
              (fun u => insertAtPath u rest name child), by simp [walkNode],
            by simp [insertAtPath, walkNode]⟩
        | cons d qrest =>
          obtain ⟨hdc, hrest⟩ : c = d ∧ rest = qrest ++ s := by simpa using hq
          subst hdc
          obtain ⟨ch1, w1, ch2, h1, h2⟩ := ih v name child ch w hw qrest s hrest
          refine ⟨ch1, w1, ch2, ?_, ?_⟩
          · simp [walkNode, hg, h1]
          · simp [insertAtPath, walkNode, GuestMap.get_modify_self, hg, h2]

/-! ### Case analysis of `open_with_options` -/

/-- Either `open_with_options` leaves the filesystem untouched, or it took
the creation branch: the options passed the assertion with `create` set,
the parent resolved to a writeable directory without the final component,
and the one change is the insertion of a new writeable `File` whose host
path is the parent's host directory joined with the filename. -/
theorem open_with_options_cases (fs : Fs) (path : Str) (o : GuestOpenOptions) :
    (fs.open_with_options path o).2 = fs ∨
    ∃ comps pcs fname children dhp,
      resolve_path path (some fs.current_directory) = some comps ∧
      splitLast? comps = some (pcs, fname) ∧
      walkNode fs.root pcs = some (.directory children (some dhp)) ∧
      GuestMap.get children fname = none ∧
      o.create = true ∧
      fs.open_with_options path o =
        (.ok (dhp ++ [fname])
          { read := o.read, write := o.write, append := o.append,
            create := o.create, truncate := o.truncate },
         { fs with root := insertAtPath fs.root pcs fname (.file (dhp ++ [fname]) true) }) := by
  cases hcond : ((!o.truncate && !o.create) || o.write || o.append) with
  | false => left; simp [Fs.open_with_options, hcond]
  | true =>
    cases hres : resolve_path path (some fs.current_directory) with
    | none => left; simp [Fs.open_with_options, hcond, hres]
    | some comps =>
      cases hsplit : splitLast? comps with
      | none => left; simp [Fs.open_with_options, hcond, hres, hsplit]
      | some pr =>
        obtain ⟨pcs, fname⟩ := pr
        cases hpar : walkNode fs.root pcs with
        | none => left; simp [Fs.open_with_options, hcond, hres, hsplit, hpar]
        | some parent =>
          cases parent with
          | file hp w =>
            left; simp [Fs.open_with_options, hcond, hres, hsplit, hpar]
          | directory children dhpOpt =>
            cases hget : GuestMap.get children fname with
            | some existing =>
              cases existing with
              | directory ch2 w2 =>
                left; simp [Fs.open_with_options, hcond, hres, hsplit, hpar, hget]
              | file hp2 w2 =>
                left
                simp [Fs.open_with_options, hcond, hres, hsplit, hpar, hget, apply_ite Prod.snd]
            | none =>
              cases hcreate : o.create with
              | false =>
                left
                simp [Fs.open_with_options, hcond, hres, hsplit, hpar, hget, hcreate,
                  apply_ite Prod.snd]
              | true =>
                cases hdhp : dhpOpt with
                | none =>
                  left
                  simp [Fs.open_with_options, hcond, hres, hsplit, hpar, hget,
                    hcreate, hdhp, apply_ite Prod.snd]
                | some dhp =>
                  cases hsepa : fname.any (fun c => c = '/') with
                  | true =>
                    left
                    simp [Fs.open_with_options, hcond, hres, hsplit, hpar, hget,
                      hcreate, hdhp, hsepa, apply_ite Prod.snd]
                  | false =>
                    right
                    have hwa : o.write = true ∨ o.append = true := by
                      rw [hcreate] at hcond
                      simpa using hcond
                    refine ⟨comps, pcs, fname, children, dhp, rfl, hsplit, ?_, hget, rfl, ?_⟩
                    · rw [hpar, hdhp]
                    rcases hwa with hw | ha
                    · simp [Fs.open_with_options, hcond, hres, hsplit, hpar, hget,
                        hcreate, hdhp, hsepa, hw]
                    · simp [Fs.open_with_options, hcond, hres, hsplit, hpar, hget,
                        hcreate, hdhp, hsepa, ha]

/-! ### Claim theorems for the filesystem -/

/-- **C2.** Path resolution produces no empty, `.` or `..` components:
applying a piece ignores `""` and `"."`, pops the last component on `".."`
(a silent no-op on an empty list), and pushes any other piece verbatim;
for a relative path the pieces of `relative_to` are applied first, then
the pieces of the path. -/
theorem claim2_resolve_components :
    (∀ cs : List Str, apply_path_component cs [] = cs) ∧
    (∀ cs : List Str, apply_path_component cs ['.'] = cs) ∧
    (∀ cs : List Str, apply_path_component cs ['.', '.'] = cs.dropLast) ∧
    apply_path_component [] ['.', '.'] = [] ∧
    (∀ (cs : List Str) (c : Str), c ≠ [] → c ≠ ['.'] → c ≠ ['.', '.'] →
      apply_path_component cs c = cs ++ [c]) ∧
    (∀ path r : Str, startsWithSlash r = true →
      ∃ cs, resolve_path path (some r) = some cs ∧
        ∀ c ∈ cs, c ≠ [] ∧ c ≠ ['.'] ∧ c ≠ ['.', '.']) ∧
    (∀ path r : Str, startsWithSlash path = false → startsWithSlash r = true →
      resolve_path path (some r) =
        some ((splitChar '/' path).foldl apply_path_component
          ((splitChar '/' r).foldl apply_path_component []))) := by
  refine ⟨?_, ?_, ?_, ?_, ?_, ?_, ?_⟩
  · intro cs
    simp [apply_path_component]
  · intro cs
    simp [apply_path_component]
  · intro cs
    simp [apply_path_component]
  · simp [apply_path_component]
  · intro cs c h1 h2 h3
    simp [apply_path_component, h1, h2, h3]
  · intro path r hr
    cases hres : resolve_path path (some r) with
    | none =>
      exfalso
      have := resolve_path_isSome path r hr
      rw [hres] at this
      exact absurd this (by simp)
    | some cs =>
      exact ⟨cs, rfl, fun c hc => (resolve_path_components path (some r) cs hres c hc).1⟩
  · intro path r hp hr
    rw [resolve_path_rel path r hp, if_pos hr]

/-- **C10.** `resolve_path` cannot panic when its `relative_to` argument is
absolute; `Fs::new` sets the current directory to the absolute home
directory `/User/Applications/<FAKE_UUID>`; `open_with_options` never
changes the current (or home) directory; hence resolution inside `Fs`
operations, which always pass the current directory, never panics. -/
theorem claim10_resolution_never_panics :
    (∀ path r : Str, startsWithSlash r = true →
      (resolve_path path (some r)).isSome = true) ∧
    (∀ (bundle_scan documents_scan : FsNode) (bundle_dir_name bundle_id : Str),
      (Fs.new bundle_scan documents_scan bundle_dir_name bundle_id).1.current_directory =
        "/User/Applications/".data ++ FAKE_UUID ∧
      startsWithSlash
        (Fs.new bundle_scan documents_scan bundle_dir_name
          bundle_id).1.current_directory = true) ∧
    (∀ (fs : Fs) (path : Str) (o : GuestOpenOptions),
      (fs.open_with_options path o).2.current_directory = fs.current_directory ∧
      (fs.open_with_options path o).2.home_directory = fs.home_directory) ∧
    (∀ (fs : Fs) (path : Str) (o : GuestOpenOptions),
      startsWithSlash fs.current_directory = true →
      (resolve_path path (some fs.current_directory)).isSome = true ∧
      (fs.open_with_options path o).1 ≠ .panicResolve) := by
  have hfields : ∀ (fs : Fs) (path : Str) (o : GuestOpenOptions),
      (fs.open_with_options path o).2.current_directory = fs.current_directory ∧
      (fs.open_with_options path o).2.home_directory = fs.home_directory := by
    intro fs path o
    rcases open_with_options_cases fs path o with h | ⟨_, _, _, _, _, _, _, _, _, _, h⟩
    · rw [h]
      exact ⟨rfl, rfl⟩
    · rw [h]
      exact ⟨rfl, rfl⟩
  refine ⟨resolve_path_isSome, ?_, hfields, ?_⟩
  · intro bundle_scan documents_scan bundle_dir_name bundle_id
    exact ⟨rfl, rfl⟩
  · intro fs path o hcwd
    refine ⟨resolve_path_isSome path fs.current_directory hcwd, ?_⟩
    obtain ⟨cs, hcs⟩ := Option.isSome_iff_exists.mp
      (resolve_path_isSome path fs.current_directory hcwd)
    cases hcond : ((!o.truncate && !o.create) || o.write || o.append) with
    | false => simp [Fs.open_with_options, hcond]
    | true =>
      cases hsplit : splitLast? cs with
      | none => simp [Fs.open_with_options, hcond, hcs, hsplit]
      | some pr =>
        obtain ⟨pcs, fname⟩ := pr
        cases hpar : walkNode fs.root pcs with
        | none => simp [Fs.open_with_options, hcond, hcs, hsplit, hpar]
        | some parent =>
          cases parent with
          | file hp w => simp [Fs.open_with_options, hcond, hcs, hsplit, hpar]
          | directory children dhpOpt =>
            cases hget : GuestMap.get children fname with
            | some existing =>
              cases existing with
              | directory ch2 w2 =>
                simp [Fs.open_with_options, hcond, hcs, hsplit, hpar, hget]
              | file hp2 w2 =>
                simp only [Fs.open_with_options, hcond, hcs, hsplit, hpar, hget,
                  apply_ite Prod.fst]
                repeat' split
                all_goals simp_all
            | none =>
              cases hcreate : o.create with
              | false =>
                simp only [Fs.open_with_options, hcond, hcs, hsplit, hpar, hget, hcreate,
                  apply_ite Prod.fst]
                split <;> simp_all
              | true =>
                cases hdhp : dhpOpt with
                | none =>
                  simp only [Fs.open_with_options, hcond, hcs, hsplit, hpar, hget, hcreate,
                    hdhp, apply_ite Prod.fst]
                  split <;> simp_all
                | some dhp =>
                  cases hsepa : fname.any (fun c => c = '/') with
                  | true =>
                    simp only [Fs.open_with_options, hcond, hcs, hsplit, hpar, hget, hcreate,
                      hdhp, hsepa, apply_ite Prod.fst]
                    split <;> simp_all
                  | false =>
                    simp only [Fs.open_with_options, hcond, hcs, hsplit, hpar, hget, hcreate,
                      hdhp, hsepa, apply_ite Prod.fst]
                    split <;> simp_all

/-- **C4.** The options assertion of `open_with_options`: if `create` or
`truncate` is set while neither `write` nor `append` is, the call is fatal
(`panicAssert`); whenever the documented constraint holds, the assertion
never fires. -/
theorem claim4_options_assertion (fs : Fs) (path : Str) (o : GuestOpenOptions) :
    ((o.create = true ∨ o.truncate = true) → o.write = false → o.append = false →
      fs.open_with_options path o = (.panicAssert, fs)) ∧
    ((o.write = true ∨ o.append = true ∨ (o.create = false ∧ o.truncate = false)) →
      (fs.open_with_options path o).1 ≠ .panicAssert) := by
  constructor
  · intro hct hw ha
    have hcond : ((!o.truncate && !o.create) || o.write || o.append) = false := by
      rcases hct with h | h <;> simp [h, hw, ha]
    simp [Fs.open_with_options, hcond]
  · intro hok
    have hcond : ((!o.truncate && !o.create) || o.write || o.append) = true := by
      rcases hok with h | h | ⟨h1, h2⟩
      · simp [h]
      · simp [h]
      · simp [h1, h2]
    cases hres : resolve_path path (some fs.current_directory) with
    | none => simp [Fs.open_with_options, hcond, hres]
    | some cs =>
      cases hsplit : splitLast? cs with
      | none => simp [Fs.open_with_options, hcond, hres, hsplit]
      | some pr =>
        obtain ⟨pcs, fname⟩ := pr
        cases hpar : walkNode fs.root pcs with
        | none => simp [Fs.open_with_options, hcond, hres, hsplit, hpar]
        | some parent =>
          cases parent with
          | file hp w => simp [Fs.open_with_options, hcond, hres, hsplit, hpar]
          | directory children dhpOpt =>
            cases hget : GuestMap.get children fname with
            | some existing =>
              cases existing with
              | directory ch2 w2 =>
                simp [Fs.open_with_options, hcond, hres, hsplit, hpar, hget]
              | file hp2 w2 =>
                simp only [Fs.open_with_options, hcond, hres, hsplit, hpar, hget,
                  apply_ite Prod.fst]
                repeat' split
                all_goals simp_all
            | none =>
              cases hcreate : o.create with
              | false =>
                simp only [Fs.open_with_options, hcond, hres, hsplit, hpar, hget, hcreate,
                  apply_ite Prod.fst]
                split <;> simp_all
              | true =>
                cases hdhp : dhpOpt with
                | none =>
                  simp only [Fs.open_with_options, hcond, hres, hsplit, hpar, hget, hcreate,
                    hdhp, apply_ite Prod.fst]
                  split <;> simp_all
                | some dhp =>
                  cases hsepa : fname.any (fun c => c = '/') with
                  | true =>
                    simp only [Fs.open_with_options, hcond, hres, hsplit, hpar, hget, hcreate,
                      hdhp, hsepa, apply_ite Prod.fst]
                    split <;> simp_all
                  | false =>
                    simp only [Fs.open_with_options, hcond, hres, hsplit, hpar, hget, hcreate,
                      hdhp, hsepa, apply_ite Prod.fst]
                    split <;> simp_all

/-- **C3.** Opening an existing read-only file with `write` or `append`
requested is denied: `open_with_options` returns not-found and the
filesystem state is unchanged (no host open happens — the outcome carries
no host path — and the node tree is untouched). -/
theorem claim3_readonly_file_denied (fs : Fs) (path : Str) (o : GuestOpenOptions)
    (comps pcs : List Str) (fname : Str) (children : List (Str × FsNode))
    (dhpOpt : Option HostPath) (host_path : HostPath)
    (hwa : o.write = true ∨ o.append = true)
    (hres : resolve_path path (some fs.current_directory) = some comps)
    (hsplit : splitLast? comps = some (pcs, fname))
    (hpar : walkNode fs.root pcs = some (.directory children dhpOpt))
    (hfile : GuestMap.get children fname = some (.file host_path false)) :
    fs.open_with_options path o = (.notFound, fs) := by
  have hcond : ((!o.truncate && !o.create) || o.write || o.append) = true := by
    rcases hwa with h | h <;> simp [h]
  rcases hwa with h | h
  · simp [Fs.open_with_options, hcond, hres, hsplit, hpar, hfile, h]
  · simp [Fs.open_with_options, hcond, hres, hsplit, hpar, hfile, h]

/-- **C1.** In the creation branch (parent resolves to a directory with no
child of the final name): with the options passing the assertion, if
`create` is set and the parent is writeable, `open_with_options` opens the
host path `writeable_host_dir/final_name` with the caller's five flags,
inserts a new writeable `File` child with that host path, and returns the
handle; afterwards `is_file` on the same path is true. If `create` is not
set, it returns not-found. -/
theorem claim1_create_file (fs : Fs) (path : Str) (o : GuestOpenOptions)
    (comps pcs : List Str) (fname : Str) (children : List (Str × FsNode))
    (dhpOpt : Option HostPath)
    (hassert : ((!o.truncate && !o.create) || o.write || o.append) = true)
    (hres : resolve_path path (some fs.current_directory) = some comps)
    (hsplit : splitLast? comps = some (pcs, fname))
    (hpar : walkNode fs.root pcs = some (.directory children dhpOpt))
    (hnone : GuestMap.get children fname = none) :
    (∀ dhp : HostPath, o.create = true → dhpOpt = some dhp →
      fs.open_with_options path o =
        (.ok (dhp ++ [fname])
          { read := o.read, write := o.write, append := o.append,
            create := o.create, truncate := o.truncate },
         { fs with root := insertAtPath fs.root pcs fname (.file (dhp ++ [fname]) true) }) ∧
      ((fs.open_with_options path o).2).is_file path = true) ∧
    (o.create = false → fs.open_with_options path o = (.notFound, fs)) := by
  have hns : fname.any (fun c => c = '/') = false := by
    have hmem : fname ∈ comps := by
      rw [splitLast?_eq_append comps pcs fname hsplit]
      simp
    have hnotin := (resolve_path_components path _ comps hres fname hmem).2
    rw [Bool.eq_false_iff]
    intro hcon
    rw [List.any_eq_true] at hcon
    obtain ⟨x, hx, hx2⟩ := hcon
    rw [decide_eq_true_eq] at hx2
    subst hx2
    exact hnotin hx
  constructor
  · intro dhp hcreate hdhp
    subst hdhp
    have hwa : o.write = true ∨ o.append = true := by
      rw [hcreate] at hassert
      simpa using hassert
    have hrun : fs.open_with_options path o =
        (.ok (dhp ++ [fname])
          { read := o.read, write := o.write, append := o.append,
            create := o.create, truncate := o.truncate },
         { fs with root := insertAtPath fs.root pcs fname (.file (dhp ++ [fname]) true) }) := by
      rcases hwa with h | h
      · simp [Fs.open_with_options, hassert, hres, hsplit, hpar, hnone, hcreate, hns, h]
      · simp [Fs.open_with_options, hassert, hres, hsplit, hpar, hnone, hcreate, hns, h]
    refine ⟨hrun, ?_⟩
    rw [hrun]
    have hcomps : comps = pcs ++ [fname] := splitLast?_eq_append comps pcs fname hsplit
    simp only [Fs.is_file, Fs.lookup_node]
    rw [show ({ fs with root := insertAtPath fs.root pcs fname (.file (dhp ++ [fname]) true) } : Fs).current_directory = fs.current_directory from rfl]
    rw [hres, Option.some_bind, hcomps]
    rw [walkNode_insertAtPath_self pcs fs.root fname (.file (dhp ++ [fname]) true)
      children (some dhp) hpar]
  · intro hcreate
    simp [Fs.open_with_options, hassert, hres, hsplit, hpar, hnone, hcreate,
      apply_ite Prod.fst]
    intro h1 h2
    rw [hcreate, h1, h2] at hassert
    simpa using hassert

/-- **C9.** Frame property: the read APIs are pure observations of the
filesystem value (`read` succeeds exactly on files and `open` coincides
with it), while `open_with_options` never touches the current or home
directory, leaves the state unchanged on every outcome that is not a
returned handle, and on a returned handle either left the tree unchanged
(existing-file branch) or changed it exactly by inserting the one new
`File` child into the parent directory: the new child is found at its
path, every walk not reaching the new child through the parent is
unchanged, and ancestors keep their directory status and writeability. -/
theorem claim9_frame_property (fs : Fs) (path : Str) (o : GuestOpenOptions) :
    ((fs.open_with_options path o).2.current_directory = fs.current_directory ∧
     (fs.open_with_options path o).2.home_directory = fs.home_directory) ∧
    ((∀ hp fl, (fs.open_with_options path o).1 ≠ .ok hp fl) →
      (fs.open_with_options path o).2 = fs) ∧
    (∀ hp fl, (fs.open_with_options path o).1 = .ok hp fl →
      (fs.open_with_options path o).2 = fs ∨
      ∃ comps pcs fname children dhp,
        resolve_path path (some fs.current_directory) = some comps ∧
        splitLast? comps = some (pcs, fname) ∧
        walkNode fs.root pcs = some (.directory children (some dhp)) ∧
        GuestMap.get children fname = none ∧
        hp = dhp ++ [fname] ∧
        (fs.open_with_options path o).2.root =
          insertAtPath fs.root pcs fname (.file hp true) ∧
        walkNode (fs.open_with_options path o).2.root (pcs ++ [fname]) =
          some (.file hp true) ∧
        (∀ q : List Str, (¬ ∃ s, pcs = q ++ s) → q ≠ pcs ++ [fname] →
          walkNode (fs.open_with_options path o).2.root q = walkNode fs.root q) ∧
        (∀ q s : List Str, pcs = q ++ s → ∃ ch1 w1 ch2,
          walkNode fs.root q = some (.directory ch1 w1) ∧
          walkNode (fs.open_with_options path o).2.root q =
            some (.directory ch2 w1))) ∧
    (∀ p2 : Str, (fs.readFile p2).isSome = fs.is_file p2 ∧
      fs.openFile p2 = fs.readFile p2) := by
  refine ⟨?_, ?_, ?_, ?_⟩
  · rcases open_with_options_cases fs path o with h | ⟨_, _, _, _, _, _, _, _, _, _, h⟩
    · rw [h]
      exact ⟨rfl, rfl⟩
    · rw [h]
      exact ⟨rfl, rfl⟩
  · intro hne
    rcases open_with_options_cases fs path o with h |
      ⟨comps, pcs, fname, children, dhp, _, _, _, _, _, h⟩
    · exact h
    · exfalso
      exact hne _ _ (by rw [h])
  · intro hp fl hok
    rcases open_with_options_cases fs path o with h |
      ⟨comps, pcs, fname, children, dhp, h1, h2, h3, h4, h5, h⟩
    · exact Or.inl h
    · right
      rw [h] at hok
      have hhp : dhp ++ [fname] = hp := (OpenOutcome.ok.injEq .. ▸ hok).1
      refine ⟨comps, pcs, fname, children, dhp, h1, h2, h3, h4, hhp.symm, ?_, ?_, ?_, ?_⟩
      · rw [h, ← hhp]
      · rw [h, ← hhp]
        exact walkNode_insertAtPath_self pcs fs.root fname
          (.file (dhp ++ [fname]) true) children (some dhp) h3
      · intro q hq1 hq2
        rw [h]
        exact walkNode_insertAtPath_frame pcs fs.root fname (dhp ++ [fname]) true
          children (some dhp) h3 h4 q hq1 hq2
      · intro q s hqs
        rw [h]
        exact walkNode_insertAtPath_ancestor pcs fs.root fname
          (.file (dhp ++ [fname]) true) children (some dhp) h3 q s hqs
  · intro p2
    constructor
    · unfold Fs.readFile Fs.is_file
      cases hlk : fs.lookup_node p2 with
      | none => simp
      | some node =>
        cases node with
        | file a b => simp
        | directory a b => simp
    · rfl

/-- **C8.** `memcpy` and `memmove` are the same function: both delegate to
the guest memory's byte-level `memmove` with byte count
`count * SIZEOF_C` and return `dest`, so they produce identical
post-states on all inputs (`memcpy` performs no anti-overlap check). -/
theorem claim8_memcpy_eq_memmove :
    (∀ (m : Nat → Nat) (dest src size sizeofC : Nat),
      GenericChar.memcpy m dest src size sizeofC =
        GenericChar.memmove m dest src size sizeofC) ∧
    (∀ (m : Nat → Nat) (dest src size sizeofC : Nat),
      GenericChar.memcpy m dest src size sizeofC =
        (Mem.memmove m dest src (size * sizeofC), dest) ∧
      (GenericChar.memcpy m dest src size sizeofC).2 = dest ∧
      (GenericChar.memmove m dest src size sizeofC).2 = dest) :=
  ⟨fun _ _ _ _ _ => rfl, fun _ _ _ _ _ => ⟨rfl, rfl, rfl⟩⟩

/-! ### Witnesses for the filesystem claims -/

/-- Witness for **C1** on the sample filesystem: creating `/d/g` in the
writeable directory `/d`. -/
theorem claim1_create_file_witness :
    (((!optsWriteCreate.truncate && !optsWriteCreate.create) || optsWriteCreate.write ||
        optsWriteCreate.append) = true ∧
     resolve_path "/d/g".data (some sampleFs.current_directory) = some [['d'], ['g']] ∧
     splitLast? [['d'], ['g']] = some ([['d']], ['g']) ∧
     walkNode sampleFs.root [['d']] = some (.directory sampleChildren (some [['h', 'd']])) ∧
     GuestMap.get sampleChildren ['g'] = none) ∧
    ((sampleFs.open_with_options "/d/g".data optsWriteCreate).2).is_file "/d/g".data = true ∧
    sampleFs.open_with_options "/d/g".data optsWrite = (.notFound, sampleFs) :=
  ⟨⟨rfl, rfl, rfl, rfl, rfl⟩,
   ((claim1_create_file sampleFs "/d/g".data optsWriteCreate [['d'], ['g']] [['d']] ['g']
      sampleChildren (some [['h', 'd']]) rfl rfl rfl rfl rfl).1 [['h', 'd']] rfl rfl).2,
   (claim1_create_file sampleFs "/d/g".data optsWrite [['d'], ['g']] [['d']] ['g']
      sampleChildren (some [['h', 'd']]) rfl rfl rfl rfl rfl).2 rfl⟩

/-- Witness for **C2**: pushing a verbatim component and resolving a
relative path against the absolute `/x`. -/
theorem claim2_resolve_components_witness :
    ((['b'] : Str) ≠ [] ∧ (['b'] : Str) ≠ ['.'] ∧ (['b'] : Str) ≠ ['.', '.'] ∧
      apply_path_component [] ['b'] = [['b']]) ∧
    (startsWithSlash ['/', 'x'] = true ∧
      ∃ cs, resolve_path ['a'] (some ['/', 'x']) = some cs ∧
        ∀ c ∈ cs, c ≠ [] ∧ c ≠ ['.'] ∧ c ≠ ['.', '.']) :=
  ⟨⟨by decide, by decide, by decide,
    claim2_resolve_components.2.2.2.2.1 [] ['b'] (by decide) (by decide) (by decide)⟩,
   rfl, claim2_resolve_components.2.2.2.2.2.1 ['a'] ['/', 'x'] rfl⟩

/-- Witness for **C3** on the sample filesystem: a write-mode open of the
read-only file `/d/f` is denied and changes nothing. -/
theorem claim3_readonly_file_denied_witness :
    ((optsWrite.write = true ∨ optsWrite.append = true) ∧
     resolve_path "/d/f".data (some sampleFs.current_directory) = some [['d'], ['f']] ∧
     splitLast? [['d'], ['f']] = some ([['d']], ['f']) ∧
     walkNode sampleFs.root [['d']] = some (.directory sampleChildren (some [['h', 'd']])) ∧
     GuestMap.get sampleChildren ['f'] = some (.file [['h', 'f']] false)) ∧
    sampleFs.open_with_options "/d/f".data optsWrite = (.notFound, sampleFs) :=
  ⟨⟨Or.inl rfl, rfl, rfl, rfl, rfl⟩,
   claim3_readonly_file_denied sampleFs "/d/f".data optsWrite [['d'], ['f']] [['d']] ['f']
     sampleChildren (some [['h', 'd']]) [['h', 'f']] (Or.inl rfl) rfl rfl rfl rfl⟩

/-- Witness for **C4**: `{create}` without write/append is fatal; `{read}`
never trips the assertion. -/
theorem claim4_options_assertion_witness :
    ((optsCreateOnly.create = true ∨ optsCreateOnly.truncate = true) ∧
     optsCreateOnly.write = false ∧ optsCreateOnly.append = false ∧
     sampleFs.open_with_options ['/', 'x'] optsCreateOnly = (.panicAssert, sampleFs)) ∧
    ((optsRead.write = true ∨ optsRead.append = true ∨
        (optsRead.create = false ∧ optsRead.truncate = false)) ∧
     (sampleFs.open_with_options ['/', 'x'] optsRead).1 ≠ .panicAssert) :=
  ⟨⟨Or.inl rfl, rfl, rfl,
    (claim4_options_assertion sampleFs ['/', 'x'] optsCreateOnly).1 (Or.inl rfl) rfl rfl⟩,
   Or.inr (Or.inr ⟨rfl, rfl⟩),
   (claim4_options_assertion sampleFs ['/', 'x'] optsRead).2 (Or.inr (Or.inr ⟨rfl, rfl⟩))⟩

/-- Witness for **C9**: a lookup of the nonexistent `/q` returns not-found
and leaves the sample filesystem unchanged. -/
theorem claim9_frame_property_witness :
    (∀ hp fl, (sampleFs.open_with_options ['/', 'q'] optsRead).1 ≠ .ok hp fl) ∧
    (sampleFs.open_with_options ['/', 'q'] optsRead).2 = sampleFs :=
  ⟨fun _ _ h => OpenOutcome.noConfusion h,
   (claim9_frame_property sampleFs ['/', 'q'] optsRead).2.1
     (fun _ _ h => OpenOutcome.noConfusion h)⟩

/-- Witness for **C10**: resolution of a relative path against the
absolute `/x` succeeds, and no `resolve_path` panic is reachable from the
sample filesystem, whose current directory is absolute. -/
theorem claim10_resolution_never_panics_witness :
    (startsWithSlash ['/', 'x'] = true ∧
      (resolve_path ['a'] (some ['/', 'x'])).isSome = true) ∧
    (startsWithSlash sampleFs.current_directory = true ∧
      (sampleFs.open_with_options ['a'] optsRead).1 ≠ .panicResolve) :=
  ⟨⟨rfl, claim10_resolution_never_panics.1 ['a'] ['/', 'x'] rfl⟩,
   rfl, (claim10_resolution_never_panics.2.2.2 sampleFs ['a'] optsRead rfl).2⟩

/-! ### strcmp lemmas -/

/-- One step of the `strcmp` loop. -/
theorem strcmp_succ {C : Type} [LinearOrder C] (nul : C) (m : Nat → C) (a b f : Nat) :
    GenericChar.strcmp nul m a b (f + 1) =
      if m a < m b then some (-1)
      else if m b < m a then some 1
      else if m a = nul then some 0
      else GenericChar.strcmp nul m (a + 1) (b + 1) f := rfl

/-- With the first string terminated at offset `La`, the `strcmp` loop
finishes within `La + 1` iterations and yields only `-1`, `0` or `1`. -/
theorem strcmp_terminates {C : Type} [LinearOrder C] (nul : C) (m : Nat → C) :
    ∀ (La a b : Nat), m (a + La) = nul →
      ∃ r, GenericChar.strcmp nul m a b (La + 1) = some r ∧
        (r = -1 ∨ r = 0 ∨ r = 1) := by
  intro La
  induction La with
  | zero =>
    intro a b h
    rw [Nat.add_zero] at h
    rw [strcmp_succ]
    by_cases h1 : m a < m b
    · exact ⟨-1, by rw [if_pos h1], Or.inl rfl⟩
    · by_cases h2 : m b < m a
      · exact ⟨1, by rw [if_neg h1, if_pos h2], Or.inr (Or.inr rfl)⟩
      · exact ⟨0, by rw [if_neg h1, if_neg h2, if_pos h], Or.inr (Or.inl rfl)⟩
  | succ L ih =>
    intro a b h
    rw [strcmp_succ]
    by_cases h1 : m a < m b
    · exact ⟨-1, by rw [if_pos h1], Or.inl rfl⟩
    · by_cases h2 : m b < m a
      · exact ⟨1, by rw [if_neg h1, if_pos h2], Or.inr (Or.inr rfl)⟩
      · by_cases h3 : m a = nul
        · exact ⟨0, by rw [if_neg h1, if_neg h2, if_pos h3], Or.inr (Or.inl rfl)⟩
        · obtain ⟨r, hr, hrs⟩ := ih (a + 1) (b + 1)
            (by rw [show a + 1 + L = a + (L + 1) by omega]; exact h)
          exact ⟨r, by rw [if_neg h1, if_neg h2, if_neg h3]; exact hr, hrs⟩

/-- `strcmp` of a terminated string with itself is `0`. -/
theorem strcmp_self {C : Type} [LinearOrder C] (nul : C) (m : Nat → C) :
    ∀ (La a : Nat), m (a + La) = nul →
      GenericChar.strcmp nul m a a (La + 1) = some 0 := by
  intro La
  induction La with
  | zero =>
    intro a h
    rw [Nat.add_zero] at h
    rw [strcmp_succ, if_neg (lt_irrefl (m a)), if_neg (lt_irrefl (m a)), if_pos h]
  | succ L ih =>
    intro a h
    rw [strcmp_succ, if_neg (lt_irrefl (m a)), if_neg (lt_irrefl (m a))]
    by_cases h3 : m a = nul
    · rw [if_pos h3]
    · rw [if_neg h3]
      exact ih (a + 1) (by rw [show a + 1 + L = a + (L + 1) by omega]; exact h)

/-- Swapping the arguments of `strcmp` negates the result (at any fuel). -/
theorem strcmp_antisym {C : Type} [LinearOrder C] (nul : C) (m : Nat → C) :
    ∀ (fuel a b : Nat) (r : Int), GenericChar.strcmp nul m a b fuel = some r →
      GenericChar.strcmp nul m b a fuel = some (-r) := by
  intro fuel
  induction fuel with
  | zero =>
    intro a b r h
    simp [GenericChar.strcmp] at h
  | succ f ih =>
    intro a b r h
    rw [strcmp_succ] at h
    rw [strcmp_succ]
    by_cases h1 : m a < m b
    · rw [if_pos h1, Option.some.injEq] at h
      subst h
      rw [if_neg (lt_asymm h1), if_pos h1]
      simp
    · by_cases h2 : m b < m a
      · rw [if_neg h1, if_pos h2, Option.some.injEq] at h
        subst h
        rw [if_pos h2]
      · have hba : m b = m a := le_antisymm (not_lt.mp h1) (not_lt.mp h2)
        by_cases h3 : m a = nul
        · rw [if_neg h1, if_neg h2, if_pos h3, Option.some.injEq] at h
          subst h
          rw [if_neg h2, if_neg h1, if_pos (hba.trans h3)]
          rfl
        · rw [if_neg h1, if_neg h2, if_neg h3] at h
          rw [if_neg h2, if_neg h1, if_neg (fun hc : m b = nul => h3 (hba ▸ hc))]
          exact ih (a + 1) (b + 1) r h

/-- **C7.** For terminated strings, `strcmp` terminates with a value in
`{-1, 0, +1}` (never the raw unit difference), `strcmp(a, a) = 0`, and
swapping the arguments negates the result. -/
theorem claim7_strcmp_properties {C : Type} [LinearOrder C] (nul : C) (m : Nat → C)
    (a b La : Nat) (h : m (a + La) = nul) :
    ∃ r, GenericChar.strcmp nul m a b (La + 1) = some r ∧
      (r = -1 ∨ r = 0 ∨ r = 1) ∧
      GenericChar.strcmp nul m b a (La + 1) = some (-r) ∧
      GenericChar.strcmp nul m a a (La + 1) = some 0 := by
  obtain ⟨r, hr, hrs⟩ := strcmp_terminates nul m La a b h
  exact ⟨r, hr, hrs, strcmp_antisym nul m (La + 1) a b r hr, strcmp_self nul m La a h⟩

/-- Witness for **C7** on the sample memory: comparing the string `[1, 2]`
at `10` with the string `[1, 1, 2]` at `0`. -/
theorem claim7_strcmp_properties_witness :
    sampleMem (10 + 2) = 0 ∧
    ∃ r, GenericChar.strcmp 0 sampleMem 10 0 (2 + 1) = some r ∧
      (r = -1 ∨ r = 0 ∨ r = 1) ∧
      GenericChar.strcmp 0 sampleMem 0 10 (2 + 1) = some (-r) ∧
      GenericChar.strcmp 0 sampleMem 10 10 (2 + 1) = some 0 :=
  ⟨by decide, claim7_strcmp_properties 0 sampleMem 10 0 2 (by decide)⟩

/-! ### strncpy lemmas -/

/-- One copying step of the `strncpy` loop (terminator not yet seen). -/
theorem strncpyAux_succ_false {C : Type} [DecidableEq C] (nul : C) (dest src i k : Nat)
    (m : Nat → C) :
    GenericChar.strncpyAux nul dest src i (k + 1) false m =
      GenericChar.strncpyAux nul dest src (i + 1) k (decide (m (src + i) = nul))
        (writeMem m (dest + i) (m (src + i))) := by
  simp [GenericChar.strncpyAux]

/-- One padding step of the `strncpy` loop (terminator already seen). -/
theorem strncpyAux_succ_true {C : Type} [DecidableEq C] (nul : C) (dest src i k : Nat)
    (m : Nat → C) :
    GenericChar.strncpyAux nul dest src i (k + 1) true m =
      GenericChar.strncpyAux nul dest src (i + 1) k true (writeMem m (dest + i) nul) := by
  simp [GenericChar.strncpyAux]

/-- Loop invariant of `strncpy`: assuming destination and source regions
are disjoint, after the remaining `k` iterations starting at index `i`
(with the `end` flag faithful to whether a source terminator occurred
before `i`), positions outside `dest + [i, i+k)` are untouched, and each
position `dest + (i+t)` holds the source unit when no terminator precedes
it and the null unit otherwise. -/
theorem strncpyAux_spec {C : Type} [DecidableEq C] (nul : C) (origm : Nat → C)
    (dest src size : Nat)
    (hdisj : ∀ a b : Nat, a < size → b < size → dest + a ≠ src + b) :
    ∀ (k i : Nat) (ed : Bool) (macc : Nat → C),
      i + k ≤ size →
      (∀ x, (∀ j, j < i → x ≠ dest + j) → macc x = origm x) →
      (ed = true ↔ ∃ j, j < i ∧ origm (src + j) = nul) →
      ((∀ x, (∀ j, i ≤ j → j < i + k → x ≠ dest + j) →
          GenericChar.strncpyAux nul dest src i k ed macc x = macc x) ∧
       (∀ t, t < k →
          ((∀ j, j < i + t → origm (src + j) ≠ nul) →
            GenericChar.strncpyAux nul dest src i k ed macc (dest + (i + t)) =
              origm (src + (i + t))) ∧
          ((∃ j, j < i + t ∧ origm (src + j) = nul) →
            GenericChar.strncpyAux nul dest src i k ed macc (dest + (i + t)) = nul))) := by
  intro k
  induction k with
  | zero =>
    intro i ed macc hle hmacc hiff
    refine ⟨fun x _ => rfl, fun t ht => absurd ht (by omega)⟩
  | succ k ih =>
    intro i ed macc hle hmacc hiff
    cases ed with
    | true =>
      have hex : ∃ j, j < i ∧ origm (src + j) = nul := hiff.mp rfl
      obtain ⟨IH1, IH2⟩ := ih (i + 1) true (writeMem macc (dest + i) nul)
        (by omega)
        (fun x hx => by
          rw [writeMem, if_neg (hx i (by omega))]
          exact hmacc x (fun j hj => hx j (by omega)))
        (by
          constructor
          · intro _
            obtain ⟨j, hj, hjn⟩ := hex
            exact ⟨j, by omega, hjn⟩
          · intro _
            rfl)
      rw [strncpyAux_succ_true]
      constructor
      · intro x hx
        rw [IH1 x (fun j hj1 hj2 => hx j (by omega) (by omega))]
        rw [writeMem, if_neg (hx i (by omega) (by omega))]
      · intro t ht
        cases t with
        | zero =>
          constructor
          · intro hall
            exfalso
            obtain ⟨j, hj, hjn⟩ := hex
            exact hall j (by omega) hjn
          · intro _
            rw [IH1 (dest + (i + 0)) (fun j hj1 hj2 hcon => by omega)]
            rw [writeMem, if_pos (by omega)]
        | succ t' =>
          have hIH := IH2 t' (by omega)
          constructor
          · intro hall
            exfalso
            obtain ⟨j, hj, hjn⟩ := hex
            exact hall j (by omega) hjn
          · intro hexnull
            rw [show i + (t' + 1) = (i + 1) + t' by omega]
            refine hIH.2 ?_
            obtain ⟨j, hj, hjn⟩ := hexnull
            exact ⟨j, by omega, hjn⟩
    | false =>
      have hnoex : ¬ ∃ j, j < i ∧ origm (src + j) = nul := by
        intro hp
        exact Bool.false_ne_true (hiff.mpr hp)
      have hread : macc (src + i) = origm (src + i) := by
        refine hmacc (src + i) (fun j hj hcon => ?_)
        exact hdisj j i (by omega) (by omega) hcon.symm
      obtain ⟨IH1, IH2⟩ := ih (i + 1) (decide (macc (src + i) = nul))
        (writeMem macc (dest + i) (macc (src + i)))
        (by omega)
        (fun x hx => by
          rw [writeMem, if_neg (hx i (by omega))]
          exact hmacc x (fun j hj => hx j (by omega)))
        (by
          rw [hread]
          constructor
          · intro hdec
            exact ⟨i, by omega, of_decide_eq_true hdec⟩
          · intro hp
            obtain ⟨j, hj, hjn⟩ := hp
            have hji : j = i := by
              by_contra hne
              exact hnoex ⟨j, by omega, hjn⟩
            subst hji
            exact decide_eq_true hjn)
      rw [strncpyAux_succ_false]
      constructor
      · intro x hx
        rw [IH1 x (fun j hj1 hj2 => hx j (by omega) (by omega))]
        rw [writeMem, if_neg (hx i (by omega) (by omega))]
      · intro t ht
        cases t with
        | zero =>
          have hself : GenericChar.strncpyAux nul dest src (i + 1) k
              (decide (macc (src + i) = nul))
              (writeMem macc (dest + i) (macc (src + i))) (dest + (i + 0)) =
              macc (src + i) := by
            rw [IH1 (dest + (i + 0)) (fun j hj1 hj2 hcon => by omega)]
            rw [writeMem, if_pos (by omega)]
          constructor
          · intro _
            rw [hself, hread]
            simp
          · intro hexnull
            rw [hself, hread]
            obtain ⟨j, hj, hjn⟩ := hexnull
            have hji : j = i := by
              by_contra hne
              exact hnoex ⟨j, by omega, hjn⟩
            subst hji
            exact hjn
        | succ t' =>
          have hIH := IH2 t' (by omega)
          constructor
          · intro hall
            rw [show i + (t' + 1) = (i + 1) + t' by omega]
            refine hIH.1 (fun j hj => hall j (by omega))
          · intro hexnull
            rw [show i + (t' + 1) = (i + 1) + t' by omega]
            refine hIH.2 ?_
            obtain ⟨j, hj, hjn⟩ := hexnull
            exact ⟨j, by omega, hjn⟩

/-- **C6.** With disjoint source and destination regions, `strncpy` writes
exactly `n` units at `dest`: the units of `src` up to and including its
terminator as far as they fit, then null units for every remaining
position; all other addresses are untouched; if `strlen(src) < n`, every
unit at offset ≥ `strlen(src)` is null. It returns `dest`. -/
theorem claim6_strncpy_pads_with_zeros {C : Type} [DecidableEq C] (nul : C)
    (m : Nat → C) (dest src size : Nat)
    (hdisj : ∀ a b : Nat, a < size → b < size → dest + a ≠ src + b) :
    ((GenericChar.strncpy nul m dest src size).2 = dest) ∧
    (∀ x, (∀ i, i < size → x ≠ dest + i) →
      (GenericChar.strncpy nul m dest src size).1 x = m x) ∧
    (∀ i, i < size → (∀ j, j < i → m (src + j) ≠ nul) →
      (GenericChar.strncpy nul m dest src size).1 (dest + i) = m (src + i)) ∧
    (∀ i, i < size → (∃ j, j < i ∧ m (src + j) = nul) →
      (GenericChar.strncpy nul m dest src size).1 (dest + i) = nul) ∧
    (∀ L, isStrlen nul m src L → L < size →
      ∀ i, L ≤ i → i < size → (GenericChar.strncpy nul m dest src size).1 (dest + i) = nul) := by
  obtain ⟨H1, H2⟩ := strncpyAux_spec nul m dest src size hdisj size 0 false m
    (by omega) (fun x _ => rfl)
    (by
      constructor
      · intro hcon
        exact absurd hcon (by simp)
      · intro hp
        obtain ⟨j, hj, _⟩ := hp
        omega)
  refine ⟨rfl, ?_, ?_, ?_, ?_⟩
  · intro x hx
    exact H1 x (fun j _ hj2 => hx j (by omega))
  · intro i hi hall
    have := (H2 i (by omega)).1 (fun j hj => hall j (by omega))
    simpa using this
  · intro i hi hexn
    have := (H2 i (by omega)).2 (by
      obtain ⟨j, hj, hjn⟩ := hexn
      exact ⟨j, by omega, hjn⟩)
    simpa using this
  · intro L hL hLlt i hLi hi
    obtain ⟨hL0, hLpos⟩ := hL
    rcases Nat.eq_or_lt_of_le hLi with hEq | hLt
    · subst hEq
      have := (H2 L (by omega)).1 (fun j hj => hLpos j (by omega))
      simpa [hL0] using this
    · have := (H2 i (by omega)).2 ⟨L, by omega, hL0⟩
      simpa using this

/-- Witness for **C6** on the sample memory: copying the string `[1, 1, 2]`
at `0` to the disjoint region at `100` with `n = 5` pads offsets 3 and 4
with zeros and returns `dest`. -/
theorem claim6_strncpy_pads_with_zeros_witness :
    (∀ a b : Nat, a < 5 → b < 5 → 100 + a ≠ 0 + b) ∧
    isStrlen 0 sampleMem 0 3 ∧
    (GenericChar.strncpy 0 sampleMem 100 0 5).2 = 100 ∧
    (GenericChar.strncpy 0 sampleMem 100 0 5).1 (100 + 4) = 0 :=
  ⟨by intro a b ha hb; omega, ⟨by decide, by decide⟩,
   (claim6_strncpy_pads_with_zeros 0 sampleMem 100 0 5
     (by intro a b ha hb; omega)).1,
   (claim6_strncpy_pads_with_zeros 0 sampleMem 100 0 5
     (by intro a b ha hb; omega)).2.2.2.2 3
     ⟨by decide, by decide⟩ (by decide) 4 (by decide) (by decide)⟩

/-! ### strstr lemmas -/

/-- One step of the inner `strstr` loop. -/
theorem strstrInner_succ {C : Type} [DecidableEq C] (nul : C) (m : Nat → C)
    (s sub off io f : Nat) :
    GenericChar.strstrInner nul m s sub off io (f + 1) =
      if m (sub + io) = nul then some (.found (s + off))
      else if m (s + off + io) = nul then some .nullp
      else if m (s + off + io) ≠ m (sub + io) then some .nomatch
      else GenericChar.strstrInner nul m s sub off (io + 1) f := rfl

/-- One step of the outer `strstr` loop. -/
theorem strstrOuter_succ {C : Type} [DecidableEq C] (nul : C) (m : Nat → C)
    (s sub ifuel off f : Nat) :
    GenericChar.strstrOuter nul m s sub ifuel off (f + 1) =
      match GenericChar.strstrInner nul m s sub off 0 ifuel with
      | none => none
      | some (.found p) => some p
      | some .nullp => some 0
      | some .nomatch => GenericChar.strstrOuter nul m s sub ifuel (off + 1) f := rfl

/-- The inner loop fully matches the needle: when the units match and are
non-null up to the needle terminator, the loop returns the match. -/
theorem strstrInner_found {C : Type} [DecidableEq C] (nul : C) (m : Nat → C)
    (s sub off N : Nat) (hN0 : m (sub + N) = nul) :
    ∀ (k io : Nat), N - io = k → io ≤ N →
      (∀ i, io ≤ i → i < N → m (sub + i) ≠ nul ∧ m (s + off + i) = m (sub + i)) →
      ∀ f, k < f →
      GenericChar.strstrInner nul m s sub off io f = some (.found (s + off)) := by
  intro k
  induction k with
  | zero =>
    intro io hk hio hpre f hf
    have hioN : io = N := by omega
    subst hioN
    obtain ⟨f', rfl⟩ : ∃ f', f = f' + 1 := ⟨f - 1, by omega⟩
    rw [strstrInner_succ, if_pos hN0]
  | succ k ih =>
    intro io hk hio hpre f hf
    obtain ⟨f', rfl⟩ : ∃ f', f = f' + 1 := ⟨f - 1, by omega⟩
    have hioN : io < N := by omega
    obtain ⟨hnn, heq⟩ := hpre io (le_refl io) hioN
    rw [strstrInner_succ, if_neg hnn, if_neg (by rw [heq]; exact hnn),
      if_neg (fun hcon => hcon heq)]
    exact ih (io + 1) (by omega) (by omega) (fun i h1 h2 => hpre i (by omega) h2) f' (by omega)

/-- The inner loop hits a mismatch at position `j` (both units non-null)
after matching non-null units before it: it breaks with `nomatch`. -/
theorem strstrInner_nomatch {C : Type} [DecidableEq C] (nul : C) (m : Nat → C)
    (s sub off j : Nat) (hmj : m (s + off + j) ≠ m (sub + j))
    (hjn : m (sub + j) ≠ nul) (hjs : m (s + off + j) ≠ nul) :
    ∀ (k io : Nat), j - io = k → io ≤ j →
      (∀ i, io ≤ i → i < j → m (sub + i) ≠ nul ∧ m (s + off + i) = m (sub + i)) →
      ∀ f, k < f →
      GenericChar.strstrInner nul m s sub off io f = some .nomatch := by
  intro k
  induction k with
  | zero =>
    intro io hk hio hpre f hf
    have hioj : io = j := by omega
    subst hioj
    obtain ⟨f', rfl⟩ : ∃ f', f = f' + 1 := ⟨f - 1, by omega⟩
    rw [strstrInner_succ, if_neg hjn, if_neg hjs, if_pos hmj]
  | succ k ih =>
    intro io hk hio hpre f hf
    obtain ⟨f', rfl⟩ : ∃ f', f = f' + 1 := ⟨f - 1, by omega⟩
    have hioj : io < j := by omega
    obtain ⟨hnn, heq⟩ := hpre io (le_refl io) hioj
    rw [strstrInner_succ, if_neg hnn, if_neg (by rw [heq]; exact hnn),
      if_neg (fun hcon => hcon heq)]
    exact ih (io + 1) (by omega) (by omega) (fun i h1 h2 => hpre i (by omega) h2) f' (by omega)

/-- The inner loop hits the haystack terminator at position `j` before the
needle terminator: it returns `nullp` (overall guest null). -/
theorem strstrInner_nullp {C : Type} [DecidableEq C] (nul : C) (m : Nat → C)
    (s sub off j : Nat) (hjs : m (s + off + j) = nul) (hjn : m (sub + j) ≠ nul) :
    ∀ (k io : Nat), j - io = k → io ≤ j →
      (∀ i, io ≤ i → i < j → m (sub + i) ≠ nul ∧ m (s + off + i) = m (sub + i)) →
      ∀ f, k < f →
      GenericChar.strstrInner nul m s sub off io f = some .nullp := by
  intro k
  induction k with
  | zero =>
    intro io hk hio hpre f hf
    have hioj : io = j := by omega
    subst hioj
    obtain ⟨f', rfl⟩ : ∃ f', f = f' + 1 := ⟨f - 1, by omega⟩
    rw [strstrInner_succ, if_neg hjn, if_pos hjs]
  | succ k ih =>
    intro io hk hio hpre f hf
    obtain ⟨f', rfl⟩ : ∃ f', f = f' + 1 := ⟨f - 1, by omega⟩
    have hioj : io < j := by omega
    obtain ⟨hnn, heq⟩ := hpre io (le_refl io) hioj
    rw [strstrInner_succ, if_neg hnn, if_neg (by rw [heq]; exact hnn),
      if_neg (fun hcon => hcon heq)]
    exact ih (io + 1) (by omega) (by omega) (fun i h1 h2 => hpre i (by omega) h2) f' (by omega)

/-- The outer `strstr` loop reaches and returns the first full match when
every earlier offset fails by a plain mismatch (which is guaranteed by a
properly terminated haystack containing the match). -/
theorem strstrOuter_reaches_match {C : Type} [DecidableEq C] (nul : C) (m : Nat → C)
    (s sub N H off : Nat)
    (hH : ∀ x, x < H → m (s + x) ≠ nul) (hH0 : m (s + H) = nul)
    (hN : ∀ i, i < N → m (sub + i) ≠ nul) (hN0 : m (sub + N) = nul)
    (hoff : off ≤ H)
    (hmatch : ∀ i, i < N → m (s + off + i) = m (sub + i))
    (hmin : ∀ off2, off2 < off → ¬ (∀ i, i < N → m (s + off2 + i) = m (sub + i))) :
    ∀ (d cur : Nat), off - cur = d → cur ≤ off →
      GenericChar.strstrOuter nul m s sub (N + 1) cur (d + 1) = some (s + off) := by
  have hoffN : off + N ≤ H := by
    by_contra hcon
    push_neg at hcon
    have hi0 : H - off < N := by omega
    have h1 : m (s + off + (H - off)) = m (sub + (H - off)) := hmatch (H - off) hi0
    have h2 : s + off + (H - off) = s + H := by omega
    rw [h2, hH0] at h1
    exact hN (H - off) hi0 h1.symm
  intro d
  induction d with
  | zero =>
    intro cur hd hcur
    have hco : cur = off := by omega
    subst hco
    rw [strstrOuter_succ,
      strstrInner_found nul m s sub cur N hN0 N 0 (by omega) (by omega)
        (fun i _ h2 => ⟨hN i h2, hmatch i h2⟩) (N + 1) (by omega)]
  | succ d ih =>
    intro cur hd hcur
    have hco : cur < off := by omega
    have hex : ∃ i, i < N ∧ m (s + cur + i) ≠ m (sub + i) := by
      by_contra hcon
      push_neg at hcon
      exact hmin cur hco (fun i hi => hcon i hi)
    have hjspec := Nat.find_spec hex
    have hpre : ∀ i, 0 ≤ i → i < Nat.find hex →
        m (sub + i) ≠ nul ∧ m (s + cur + i) = m (sub + i) := by
      intro i _ hij
      have hiN : i < N := by omega
      have heq : m (s + cur + i) = m (sub + i) := by
        by_contra hne
        exact Nat.find_min hex hij ⟨hiN, hne⟩
      exact ⟨hN i hiN, heq⟩
    have hjs : m (s + cur + Nat.find hex) ≠ nul := by
      have harr : s + cur + Nat.find hex = s + (cur + Nat.find hex) := by omega
      rw [harr]
      exact hH (cur + Nat.find hex) (by omega)
    rw [strstrOuter_succ,
      strstrInner_nomatch nul m s sub cur (Nat.find hex) hjspec.2
        (hN (Nat.find hex) hjspec.1) hjs (Nat.find hex) 0 (by omega) (by omega)
        hpre (N + 1) (by omega)]
    exact ih (cur + 1) (by omega) (by omega)

/-- When the needle occurs at no offset of the (properly terminated)
haystack, the outer loop eventually hits the haystack terminator and
returns guest null. -/
theorem strstrOuter_no_match {C : Type} [DecidableEq C] (nul : C) (m : Nat → C)
    (s sub N H : Nat)
    (hH : ∀ x, x < H → m (s + x) ≠ nul) (hH0 : m (s + H) = nul)
    (hN : ∀ i, i < N → m (sub + i) ≠ nul) (hN0 : m (sub + N) = nul)
    (hno : ∀ off2, off2 ≤ H → ¬ (∀ i, i < N → m (s + off2 + i) = m (sub + i))) :
    ∀ (d cur : Nat), H - cur = d → cur ≤ H →
      GenericChar.strstrOuter nul m s sub (N + 1) cur (d + 1) = some 0 := by
  have hN1 : 0 < N := by
    by_contra hcon
    push_neg at hcon
    exact hno 0 (by omega) (fun i hi => absurd hi (by omega))
  intro d
  induction d with
  | zero =>
    intro cur hd hcur
    have hcH : cur = H := by omega
    subst hcH
    rw [strstrOuter_succ,
      strstrInner_nullp nul m s sub cur 0 (by simpa using hH0) (hN 0 hN1) 0 0
        (by omega) (by omega) (fun i h1 h2 => absurd h2 (by omega)) (N + 1) (by omega)]
  | succ d ih =>
    intro cur hd hcur
    have hcH : cur < H := by omega
    have hex : ∃ i, m (s + cur + i) = nul ∨ m (s + cur + i) ≠ m (sub + i) := by
      by_contra hcon
      push_neg at hcon
      exact hno cur (by omega) (fun i _ => (hcon i).2)
    have hjspec := Nat.find_spec hex
    have hjmin : ∀ i, i < Nat.find hex →
        m (s + cur + i) ≠ nul ∧ m (s + cur + i) = m (sub + i) := by
      intro i hi
      have hnOr := Nat.find_min hex hi
      push_neg at hnOr
      exact hnOr
    have hjN : Nat.find hex ≤ N := by
      by_contra hcon
      push_neg at hcon
      have hth := hjmin N hcon
      exact hth.1 (hth.2.trans hN0)
    have hjltN : Nat.find hex < N := by
      rcases Nat.lt_or_ge (Nat.find hex) N with hlt | hge
      · exact hlt
      · exfalso
        exact hno cur (by omega) (fun i hi => (hjmin i (by omega)).2)
    have hpre : ∀ i, 0 ≤ i → i < Nat.find hex →
        m (sub + i) ≠ nul ∧ m (s + cur + i) = m (sub + i) := by
      intro i _ hij
      exact ⟨hN i (by omega), (hjmin i hij).2⟩
    by_cases hcs : m (s + cur + Nat.find hex) = nul
    · rw [strstrOuter_succ,
        strstrInner_nullp nul m s sub cur (Nat.find hex) hcs (hN (Nat.find hex) hjltN)
          (Nat.find hex) 0 (by omega) (by omega) hpre (N + 1) (by omega)]
    · have hmj : m (s + cur + Nat.find hex) ≠ m (sub + Nat.find hex) := by
        rcases hjspec with hl | hr
        · exact absurd hl hcs
        · exact hr
      rw [strstrOuter_succ,
        strstrInner_nomatch nul m s sub cur (Nat.find hex) hmj
          (hN (Nat.find hex) hjltN) hcs (Nat.find hex) 0 (by omega) (by omega)
          hpre (N + 1) (by omega)]
      exact ih (cur + 1) (by omega) (by omega)

/-- **C5.** `strstr`: an empty needle returns the haystack pointer
unchanged; for properly terminated strings, if the needle first fully
matches at `off`, the result is `haystack + off`; and if it matches at no
offset, matching runs into the haystack terminator and the result is
guest null. -/
theorem claim5_strstr_search {C : Type} [DecidableEq C] (nul : C) (m : Nat → C) :
    (∀ s sub ifuel ofuel : Nat, m sub = nul →
      GenericChar.strstr nul m s sub (ifuel + 1) (ofuel + 1) = some s) ∧
    (∀ s sub N H off : Nat,
      (∀ x, x < H → m (s + x) ≠ nul) → m (s + H) = nul →
      (∀ i, i < N → m (sub + i) ≠ nul) → m (sub + N) = nul →
      off ≤ H →
      (∀ i, i < N → m (s + off + i) = m (sub + i)) →
      (∀ off2, off2 < off → ¬ (∀ i, i < N → m (s + off2 + i) = m (sub + i))) →
      GenericChar.strstr nul m s sub (N + 1) (off + 1) = some (s + off)) ∧
    (∀ s sub N H : Nat,
      (∀ x, x < H → m (s + x) ≠ nul) → m (s + H) = nul →
      (∀ i, i < N → m (sub + i) ≠ nul) → m (sub + N) = nul →
      (∀ off2, off2 ≤ H → ¬ (∀ i, i < N → m (s + off2 + i) = m (sub + i))) →
      GenericChar.strstr nul m s sub (N + 1) (H + 1) = some 0) := by
  refine ⟨?_, ?_, ?_⟩
  · intro s sub ifuel ofuel h
    unfold GenericChar.strstr
    rw [strstrOuter_succ, strstrInner_succ, if_pos (by simpa using h)]
    simp
  · intro s sub N H off hH hH0 hN hN0 hoff hmatch hmin
    unfold GenericChar.strstr
    exact strstrOuter_reaches_match nul m s sub N H off hH hH0 hN hN0 hoff hmatch hmin
      off 0 (by omega) (by omega)
  · intro s sub N H hH hH0 hN hN0 hno
    unfold GenericChar.strstr
    exact strstrOuter_no_match nul m s sub N H hH hH0 hN hN0 hno H 0 (by omega) (by omega)

/-- Witness for **C5** on the sample memory: the empty needle at `12`
returns the haystack pointer; the needle `[1, 2]` at `10` first matches
the haystack `[1, 1, 2]` at offset `1`; the needle `[5]` at `30` does not
occur and yields guest null. -/
theorem claim5_strstr_search_witness :
    (sampleMem 12 = 0 ∧ GenericChar.strstr 0 sampleMem 5 12 (0 + 1) (0 + 1) = some 5) ∧
    ((∀ i, i < 2 → sampleMem (0 + 1 + i) = sampleMem (10 + i)) ∧
      GenericChar.strstr 0 sampleMem 0 10 (2 + 1) (1 + 1) = some (0 + 1)) ∧
    GenericChar.strstr 0 sampleMem 0 30 (1 + 1) (3 + 1) = some 0 :=
  ⟨⟨by decide, (claim5_strstr_search 0 sampleMem).1 5 12 0 0 (by decide)⟩,
   ⟨by decide, (claim5_strstr_search 0 sampleMem).2.1 0 10 2 3 1 (by decide) (by decide)
      (by decide) (by decide) (by decide) (by decide) (by decide)⟩,
   (claim5_strstr_search 0 sampleMem).2.2 0 30 1 3 (by decide) (by decide) (by decide)
      (by decide) (by decide)⟩
